import Mathlib

/-!
Verification development for the MAS-WRITER multi-agent document-authoring
workflow.  The definitions below are a shallow embedding of the core state
model and operations of the application: the outline tree and its status
update (`src/App.tsx`), the Writer-agent prompt assembly
(`src/services/geminiService.ts`, `generateContent`), the metadata-attachment
pass (`addMetadataToOutline`), the cross-reference context assembly and the
commit / export handlers (`src/App.tsx`).
-/

namespace MASWriter

/-- Lifecycle status of an outline section (`src/types.ts`, `SectionStatus`). -/
inductive SectionStatus where
  | outline
  | writing
  | completed
deriving DecidableEq, Repr

/-- Rank of a status along the forward lifecycle
`Outline → Writing → Completed`. -/
def statusRank : SectionStatus → Nat
  | .outline => 0
  | .writing => 1
  | .completed => 2

/-- Message sender (`src/types.ts`, `Message.sender`). -/
inductive Sender where
  | user
  | agent
deriving DecidableEq, Repr

/-- A chat message (`src/types.ts`, `Message`). -/
structure Message where
  sender : Sender
  text : String
deriving DecidableEq, Repr

/-- A research result (`src/types.ts`, `ResearchResult`). -/
structure ResearchResult where
  id : String
  title : String
  url : String
  summary : String
deriving DecidableEq, Repr

/-- A node of the outline tree (`src/types.ts`, `OutlineItem`). -/
structure OutlineItem where
  id : String
  title : String
  level : Nat
  status : SectionStatus
  children : List OutlineItem

/-- Per-section content record (`src/types.ts`, `SectionContent`).
Session files are represented by their names. -/
structure SectionContent where
  content : String
  messages : List Message
  sessionFiles : List String
  contextIds : List String
  researchResults : List ResearchResult
  systemPrompt : Option String
deriving DecidableEq, Repr

/-- The empty default used whenever a section is read before its first
visit (`src/App.tsx`, the `|| \x7b content: ..., messages: [], ... \x7d`
fallbacks). -/
def defaultSectionContent : SectionContent :=
  { content := "", messages := [], sessionFiles := [], contextIds := [],
    researchResults := [], systemPrompt := none }

/-- Depth-first search for a node by id (`src/App.tsx`, `findItem`):
the node itself is checked first, then its children, then its later
siblings. -/
def findItem (items : List OutlineItem) (id : String) : Option OutlineItem :=
  match items with
  | [] => none
  | item :: rest =>
    if item.id = id then some item
    else
      match findItem item.children id with
      | some found => some found
      | none => findItem rest id
termination_by sizeOf items
decreasing_by
  all_goals simp_wf
  all_goals first
    | omega
    | (rcases item with ⟨a, b, c, d, e⟩; simp; omega)

/-- The status of the node that `findItem` locates, if any. -/
def statusIn (items : List OutlineItem) (id : String) : Option SectionStatus :=
  (findItem items id).map (·.status)

/-- Structural status update (`src/App.tsx`, `updateItemStatus`), at the
value level: a node whose id matches gets the new status; a node with a
non-empty child list is rebuilt around the recursively updated children;
a childless non-matching node is returned as is. -/
def updateItemStatus (items : List OutlineItem) (id : String)
    (status : SectionStatus) : List OutlineItem :=
  match items with
  | [] => []
  | item :: rest =>
    (if item.id = id then { item with status := status }
     else if item.children.length > 0 then
       { item with children := updateItemStatus item.children id status }
     else item) :: updateItemStatus rest id status
termination_by sizeOf items
decreasing_by
  all_goals simp_wf
  all_goals first
    | omega
    | (rcases item with ⟨a, b, c, d, e⟩; simp; omega)

/-- Depth-first flattening of an outline forest, each node listed before
its children, children before later siblings. -/
def flattenDF (items : List OutlineItem) : List OutlineItem :=
  match items with
  | [] => []
  | item :: rest => item :: (flattenDF item.children ++ flattenDF rest)
termination_by sizeOf items
decreasing_by
  all_goals simp_wf
  all_goals first
    | omega
    | (rcases item with ⟨a, b, c, d, e⟩; simp; omega)

/-! ### Metadata-attachment pass (`src/services/geminiService.ts`, `addMetadataToOutline`) -/

/-- A node of the raw outline as produced by the model: only `title` and
`children`, both possibly absent (`src/services/geminiService.ts`,
parameter `items: any[]` of `addMetadataToOutline`). -/
structure RawOutlineItem where
  title : Option String
  children : Option (List RawOutlineItem)

/-- JavaScript `item.title || 'Untitled'`: absent or empty titles fall back
to `"Untitled"`. -/
def titleOrUntitled : Option String → String
  | none => "Untitled"
  | some t => if t = "" then "Untitled" else t

/-- The id assigned to the sibling at 0-based position `index` under
`parentId`: the parent id, a dot and the 1-based index when the parent id
is non-empty, the bare 1-based index at the roots. -/
def childId (parentId : String) (index : Nat) : String :=
  if parentId = "" then toString (index + 1)
  else parentId ++ "." ++ toString (index + 1)

/-- Recursive worker of the metadata-attachment pass: `index` is the
0-based position of the first list element among its siblings. -/
def addMetadataAux : List RawOutlineItem → Nat → String → Nat → List OutlineItem
  | [], _, _, _ => []
  | ⟨title, children⟩ :: rest, level, parentId, index =>
    let id := childId parentId index
    { id := id
      title := titleOrUntitled title
      level := level
      status := .outline
      children :=
        match children with
        | some cs => addMetadataAux cs (level + 1) id 0
        | none => [] } :: addMetadataAux rest level parentId (index + 1)
termination_by items => sizeOf items
decreasing_by
  all_goals simp_wf
  all_goals omega

/-- The metadata-attachment pass (`src/services/geminiService.ts`,
`addMetadataToOutline`): assigns hierarchical ids, levels and the initial
`Outline` status to an AI-generated outline.  The source's default
arguments are `level = 0`, `parentId = ''`, and `map` supplies the
0-based `index`. -/
def addMetadataToOutline (items : List RawOutlineItem) (level : Nat)
    (parentId : String) : List OutlineItem :=
  addMetadataAux items level parentId 0

/-- The node the metadata pass builds from raw `item` at hierarchical id
`id` and depth `level`: title defaulted, status `Outline`, children
processed recursively one level deeper under `id`. -/
def metaNode (item : RawOutlineItem) (level : Nat) (id : String) : OutlineItem :=
  { id := id
    title := titleOrUntitled item.title
    level := level
    status := .outline
    children :=
      match item.children with
      | some cs => addMetadataAux cs (level + 1) id 0
      | none => [] }

/-! ### Writer-agent prompt assembly (`src/services/geminiService.ts`, `generateContent`) -/

/-- One turn of the request sent to the model: the role string and the
text of its single part. -/
structure GeminiTurn where
  role : String
  text : String
deriving DecidableEq, Repr

/-- Conversion of an app message to a model turn
(`messages.map` inside `generateContent`). -/
def toGeminiTurn (msg : Message) : GeminiTurn :=
  { role := if msg.sender = Sender.user then "user" else "model"
    text := msg.text }

/-- The exact template-literal text spliced into the last user turn by
`generateContent`: global knowledge context, research context,
cross-reference context, then the user instruction, with the literal
whitespace of the source. -/
def injectContext (globalKnowledgeContext researchContext contextSections
    originalPrompt : String) : String :=
  "\n          " ++ globalKnowledgeContext ++
  "\n\n          " ++ researchContext ++
  "\n\n          " ++ contextSections ++
  "\n    \n          ---\n          User instruction: \"" ++
  originalPrompt ++ "\"\n        "

/-- Apply a function to the last element of a list, leaving every other
element unchanged (the in-place mutation of the last element of
`geminiHistory`). -/
def applyToLast (f : GeminiTurn → GeminiTurn) : List GeminiTurn → List GeminiTurn
  | [] => []
  | [x] => [f x]
  | x :: y :: rest => x :: applyToLast f (y :: rest)

/-- The request history built by `generateContent`
(`src/services/geminiService.ts`): an empty message history is rejected;
otherwise the messages are converted to model turns and, when the last
turn has role `user`, its text is replaced by the context-injection
template around the original prompt.  The model call itself is external;
this captures exactly the `contents` payload. -/
def generateContentHistory (messages : List Message) (contextSections
    researchContext globalKnowledgeContext : String) :
    Except String (List GeminiTurn) :=
  if messages.length = 0 then
    Except.error "Cannot generate content with an empty message history."
  else
    Except.ok (applyToLast
      (fun last =>
        if last.role = "user" then
          { last with text := (injectContext globalKnowledgeContext
              researchContext contextSections last.text) }
        else last)
      (messages.map toGeminiTurn))

/-- The canonical default Writer instruction
(`src/App.tsx`, `handleGenerate`, line 362). -/
def defaultInstructionFor (title : String) : String :=
  "Write the content for the section titled \"" ++ title ++ "\"."

/-- JavaScript `prompt || default`: an absent or empty free-text prompt
falls back to the canonical default instruction. -/
def finalPromptFor (prompt : Option String) (title : String) : String :=
  match prompt with
  | none => defaultInstructionFor title
  | some p => if p = "" then defaultInstructionFor title else p

/-! ### Flow state and the workflow handlers (`src/App.tsx`) -/

/-- The part of a flow's state the verified handlers read and write:
the outline tree and the per-section content store.  The content store is
the partial record `contents`; reads of missing keys use
`defaultSectionContent`. -/
structure FlowState where
  outline : List OutlineItem
  contents : String → Option SectionContent

/-- Read a section's content record, defaulting like the source's
`activeFlow.contents[id] || \x7b content: '', ... \x7d`. -/
def getContent (s : FlowState) (id : String) : SectionContent :=
  (s.contents id).getD defaultSectionContent

/-- Record update `\x7b ...contents, [id]: value \x7d`. -/
def setContent (contents : String → Option SectionContent) (id : String)
    (value : SectionContent) : String → Option SectionContent :=
  fun k => if k = id then some value else contents k

/-- Separator-join, JavaScript `Array.prototype.join(sep)`. -/
def joinSep (sep : String) : List String → String
  | [] => ""
  | [x] => x
  | x :: y :: rest => x ++ sep ++ joinSep sep (y :: rest)

/-- The individual cross-reference blocks assembled by `handleGenerate`
(`src/App.tsx`, lines 370-374): each id in `contextIds` is resolved
against the outline and the content store; an id whose node is missing or
whose content is empty contributes nothing (`filter(Boolean)`). -/
def contextParts (outline : List OutlineItem)
    (contents : String → Option SectionContent)
    (contextIds : List String) : List String :=
  contextIds.filterMap (fun id =>
    match findItem outline id, contents id with
    | some item, some sc =>
      if sc.content = "" then none
      else some ("--- REF: " ++ item.title ++ " ---\n" ++ sc.content)
    | _, _ => none)

/-- The assembled cross-reference context string
(`contextSections` in `handleGenerate`): the blocks joined by blank
lines. -/
def buildContextSections (outline : List OutlineItem)
    (contents : String → Option SectionContent)
    (contextIds : List String) : String :=
  joinSep "\n\n" (contextParts outline contents contextIds)

/-- The Writer-agent invocation handler (`src/App.tsx`, `handleGenerate`)
as a state transition.  The external model call is abstracted by
`result`: `Except.ok text` for a successful generation, `Except.error e`
for a failure (`e` is the thrown error's message).  Before the call the
handler already sets the target's status to `Writing` and appends the
user message; on success it stores the response as the section's content
and appends the agent reply; on failure it appends an agent error message
and leaves content and status as they were at the call. -/
def handleGenerate (s : FlowState) (sectionId sectionTitle : String)
    (prompt : Option String) (result : Except String String) : FlowState :=
  let outline1 := updateItemStatus s.outline sectionId .writing
  let activeContent := getContent s sectionId
  let finalPrompt := finalPromptFor prompt sectionTitle
  let userMessage : Message := { sender := .user, text := finalPrompt }
  let newMessages := activeContent.messages ++ [userMessage]
  match result with
  | .ok responseText =>
    let agentMessage : Message := { sender := .agent, text := responseText }
    { outline := outline1
      contents := setContent s.contents sectionId
        { (s.contents sectionId).getD activeContent with
            content := responseText
            messages := newMessages ++ [agentMessage] } }
  | .error e =>
    let agentErrorMessage : Message :=
      { sender := .agent, text := "I\x27m sorry, I encountered an error: " ++ e }
    { outline := outline1
      contents := setContent s.contents sectionId
        { (s.contents sectionId).getD activeContent with
            messages := newMessages ++ [agentErrorMessage] } }

/-- The commit handler (`src/App.tsx`, `handleCommit`): unconditionally
marks the active section `Completed`.  It performs no content check. -/
def handleCommit (s : FlowState) (sectionId : String) : FlowState :=
  { s with outline := updateItemStatus s.outline sectionId .completed }

/-- The Workspace commit button is disabled when the section content is
falsy (`src/components/Workspace.tsx`, `disabled=\x7b!content\x7d`). -/
def commitDisabled (content : String) : Bool :=
  content == ""

/-- A commit request issued through the Workspace UI: when the button is
disabled nothing happens; otherwise `handleCommit` runs. -/
def uiCommit (s : FlowState) (sectionId : String) : FlowState :=
  if commitDisabled (getContent s sectionId).content then s
  else handleCommit s sectionId

/-- The checkbox list offered for cross-reference selection
(`src/components/AgentInteractionPane.tsx`): all sections except the
active one. -/
def selectableSections (sections : List OutlineItem)
    (activeSection : Option OutlineItem) : List OutlineItem :=
  sections.filter (fun sec =>
    match activeSection with
    | none => true
    | some active => sec.id != active.id)

/-! ### Document export (`src/App.tsx`, `handleExportDocument` / `buildMarkdown`) -/

/-- JavaScript hash-repeat: the heading marker built by repeating the
hash character (`src/App.tsx`, the `repeat(item.level + 1)` call). -/
def hashes (n : Nat) : String :=
  String.mk (List.replicate n '#')

/-- The markdown block a completed section contributes: heading of depth
`level + 1`, then the stored content, each followed by a blank line. -/
def renderBlock (item : OutlineItem) (content : String) : String :=
  hashes (item.level + 1) ++ " " ++ item.title ++ "\n\n" ++ content ++ "\n\n"

/-- The export walk (`src/App.tsx`, `buildMarkdown`): a node emits its
block when its status is `Completed` and its stored content is non-empty;
children are visited regardless. -/
def buildMarkdown (contents : String → Option SectionContent)
    (items : List OutlineItem) : String :=
  match items with
  | [] => ""
  | item :: rest =>
    (match contents item.id with
     | some sc =>
       if item.status = SectionStatus.completed ∧ sc.content ≠ "" then
         renderBlock item sc.content
       else ""
     | none => "") ++
    ((if item.children.length > 0 then buildMarkdown contents item.children
      else "") ++
     buildMarkdown contents rest)
termination_by sizeOf items
decreasing_by
  all_goals simp_wf
  all_goals first
    | omega
    | (rcases item with ⟨a, b, c, d, e⟩; simp; omega)

/-- Concatenation of a list of strings. -/
def concatAll : List String → String
  | [] => ""
  | s :: rest => s ++ concatAll rest

/-- The block a node contributes to the export, if any: present exactly
when the node is `Completed` with non-empty stored content. -/
def completedBlock (contents : String → Option SectionContent)
    (item : OutlineItem) : Option String :=
  match contents item.id with
  | some sc =>
    if item.status = SectionStatus.completed ∧ sc.content ≠ "" then
      some (renderBlock item sc.content)
    else none
  | none => none

/-- Spec-worded form of the export contract (`exportCompletedDocument`),
used as the refinement target for `buildMarkdown`: the concatenation, in
depth-first tree order, of the blocks of exactly those nodes whose status
is `Completed` and whose stored content is non-empty. -/
def exportSpecMarkdown (contents : String → Option SectionContent)
    (items : List OutlineItem) : String :=
  concatAll ((flattenDF items).filterMap (completedBlock contents))

/-- Pointwise relation between a node of the input tree and the
corresponding node of `updateItemStatus`'s output: everything but the
status is preserved, and the status either is unchanged or — when the
node carries the targeted id — becomes the new status. -/
def statusRel (id : String) (st : SectionStatus) (a b : OutlineItem) : Prop :=
  b.id = a.id ∧ b.title = a.title ∧ b.level = a.level ∧
    (b.status = a.status ∨ (a.id = id ∧ b.status = st))

/-! ### Allocation-aware model of `updateItemStatus` (object identity)

JavaScript object spreads `\x7b ...item, ... \x7d` allocate fresh objects.
To settle reference-identity claims, `HNode` carries an address and
`updateItemStatusH` threads an allocation counter: every spread yields a
node with a fresh address, while nodes returned as-is keep theirs. -/

/-- An outline node together with its heap address. -/
structure HNode where
  addr : Nat
  id : String
  title : String
  level : Nat
  status : SectionStatus
  children : List HNode

/-- Erase addresses, recovering the value-level nodes. -/
def stripHList : List HNode → List OutlineItem
  | [] => []
  | x :: rest =>
    { id := x.id, title := x.title, level := x.level, status := x.status,
      children := stripHList x.children } :: stripHList rest
termination_by l => sizeOf l
decreasing_by
  all_goals simp_wf
  all_goals first
    | omega
    | (rcases x with ⟨a, b, c, d, e, f⟩; simp; omega)

/-- `updateItemStatus` with explicit allocations (`src/App.tsx`, lines
37-47): a matching node is rebuilt at a fresh address with the new
status; a non-matching node with children is rebuilt at a fresh address
around the recursively updated children; a childless non-matching node is
returned unchanged, address included. -/
def updateItemStatusH (items : List HNode) (id : String)
    (status : SectionStatus) (c : Nat) : List HNode × Nat :=
  match items with
  | [] => ([], c)
  | item :: rest =>
    let step : HNode × Nat :=
      if item.id = id then ({ item with addr := c, status := status }, c + 1)
      else if item.children.length > 0 then
        let rec1 := updateItemStatusH item.children id status c
        ({ item with addr := rec1.2, children := rec1.1 }, rec1.2 + 1)
      else (item, c)
    let rec2 := updateItemStatusH rest id status step.2
    (step.1 :: rec2.1, rec2.2)
termination_by sizeOf items
decreasing_by
  all_goals simp_wf
  all_goals first
    | omega
    | (rcases x with ⟨a, b, c9, d, e, f⟩; simp; omega)

/-! ### Helper lemmas -/

theorem flattenDF_nil : flattenDF [] = [] := by
  simp [flattenDF]

theorem flattenDF_cons (item : OutlineItem) (rest : List OutlineItem) :
    flattenDF (item :: rest) =
      item :: (flattenDF item.children ++ flattenDF rest) := by
  simp [flattenDF]

theorem applyToLast_concat (f : GeminiTurn → GeminiTurn) :
    ∀ (l : List GeminiTurn) (x : GeminiTurn),
      applyToLast f (l ++ [x]) = l ++ [f x]
  | [], x => rfl
  | a :: l, x => by
    cases l with
    | nil => rfl
    | cons b l2 =>
      have ih := applyToLast_concat f (b :: l2) x
      simp only [List.cons_append] at ih ⊢
      simp only [applyToLast, List.append_eq]
      rw [ih]

theorem addMetadataAux_nil (level : Nat) (pid : String) (k : Nat) :
    addMetadataAux [] level pid k = [] := by
  simp [addMetadataAux]

theorem addMetadataAux_cons (item : RawOutlineItem) (rest : List RawOutlineItem)
    (level : Nat) (pid : String) (k : Nat) :
    addMetadataAux (item :: rest) level pid k =
      metaNode item level (childId pid k) ::
        addMetadataAux rest level pid (k + 1) := by
  rcases item with ⟨t, c⟩
  cases c <;> simp [addMetadataAux, metaNode]

theorem addMetadataAux_getElem :
    ∀ (items : List RawOutlineItem) (level : Nat) (pid : String) (k i : Nat),
      (addMetadataAux items level pid k)[i]? =
        (items[i]?).map (fun item => metaNode item level (childId pid (k + i)))
  | [], level, pid, k, i => by simp [addMetadataAux_nil]
  | item :: rest, level, pid, k, 0 => by
    simp [addMetadataAux_cons]
  | item :: rest, level, pid, k, i + 1 => by
    rw [addMetadataAux_cons]
    simp only [List.getElem?_cons_succ]
    rw [addMetadataAux_getElem rest level pid (k + 1) i]
    have harith : k + 1 + i = k + (i + 1) := by omega
    rw [harith]

theorem empty_string_append (s : String) : "" ++ s = s := by
  apply String.ext
  simp [String.data_append]

theorem concatAll_append :
    ∀ (l1 l2 : List String), concatAll (l1 ++ l2) = concatAll l1 ++ concatAll l2
  | [], l2 => by
    simp only [List.nil_append, concatAll]
    exact (empty_string_append _).symm
  | s :: rest, l2 => by
    simp only [List.cons_append, concatAll, List.append_eq, concatAll_append rest l2]
    exact (String.append_assoc s (concatAll rest) (concatAll l2)).symm

theorem updateItemStatus_nil (id : String) (st : SectionStatus) :
    updateItemStatus [] id st = [] := by
  simp [updateItemStatus]

theorem updateItemStatus_cons (item : OutlineItem) (rest : List OutlineItem)
    (id : String) (st : SectionStatus) :
    updateItemStatus (item :: rest) id st =
      (if item.id = id then { item with status := st }
       else if item.children.length > 0 then
         { item with children := updateItemStatus item.children id st }
       else item) :: updateItemStatus rest id st := by
  simp [updateItemStatus]

theorem updateItemStatus_of_absent (items : List OutlineItem) (id : String)
    (st : SectionStatus) (h : ∀ n ∈ flattenDF items, n.id ≠ id) :
    updateItemStatus items id st = items := by
  match items with
  | [] => exact updateItemStatus_nil id st
  | item :: rest =>
    have hx : item.id ≠ id :=
      h item (by rw [flattenDF_cons]; exact List.mem_cons_self _ _)
    have hc : ∀ n ∈ flattenDF item.children, n.id ≠ id := fun n hn =>
      h n (by
        rw [flattenDF_cons]
        exact List.mem_cons_of_mem _ (List.mem_append_left _ hn))
    have hr : ∀ n ∈ flattenDF rest, n.id ≠ id := fun n hn =>
      h n (by
        rw [flattenDF_cons]
        exact List.mem_cons_of_mem _ (List.mem_append_right _ hn))
    rw [updateItemStatus_cons, if_neg hx,
      updateItemStatus_of_absent rest id st hr]
    by_cases hch : item.children.length > 0
    · rw [if_pos hch, updateItemStatus_of_absent item.children id st hc]
      rcases item with ⟨a, b, c, d, e⟩
      rfl
    · rw [if_neg hch]
termination_by sizeOf items
decreasing_by
  all_goals simp_wf
  all_goals first
    | omega
    | (rcases item with ⟨a, b, c, d, e⟩; simp; omega)

theorem updateItemStatus_forall₂ (items : List OutlineItem) (id : String)
    (st : SectionStatus) :
    List.Forall₂ (statusRel id st)
      (flattenDF items) (flattenDF (updateItemStatus items id st)) := by
  match items with
  | [] =>
    rw [updateItemStatus_nil, flattenDF_nil]
    exact List.Forall₂.nil
  | item :: rest =>
    have hrest := updateItemStatus_forall₂ rest id st
    have hrefl : ∀ (l : List OutlineItem), List.Forall₂ (statusRel id st) l l :=
      fun l => List.forall₂_same.2 (fun x _ => ⟨rfl, rfl, rfl, Or.inl rfl⟩)
    rw [updateItemStatus_cons]
    by_cases hid : item.id = id
    · rw [if_pos hid, flattenDF_cons, flattenDF_cons]
      exact List.Forall₂.cons ⟨rfl, rfl, rfl, Or.inr ⟨hid, rfl⟩⟩
        (List.rel_append (hrefl _) hrest)
    · rw [if_neg hid]
      by_cases hch : item.children.length > 0
      · rw [if_pos hch, flattenDF_cons, flattenDF_cons]
        exact List.Forall₂.cons ⟨rfl, rfl, rfl, Or.inl rfl⟩
          (List.rel_append (updateItemStatus_forall₂ item.children id st) hrest)
      · rw [if_neg hch, flattenDF_cons, flattenDF_cons]
        exact List.Forall₂.cons ⟨rfl, rfl, rfl, Or.inl rfl⟩
          (List.rel_append (hrefl _) hrest)
termination_by sizeOf items
decreasing_by
  all_goals simp_wf
  all_goals first
    | omega
    | (rcases item with ⟨a, b, c, d, e⟩; simp; omega)

theorem stripHList_nil : stripHList [] = [] := by
  simp [stripHList]

theorem stripHList_cons (x : HNode) (rest : List HNode) :
    stripHList (x :: rest) =
      { id := x.id, title := x.title, level := x.level, status := x.status,
        children := stripHList x.children } :: stripHList rest := by
  simp [stripHList]

theorem stripHList_length (l : List HNode) :
    (stripHList l).length = l.length := by
  induction l with
  | nil => simp [stripHList_nil]
  | cons x rest ih => rw [stripHList_cons]; simp [ih]

theorem updateItemStatusH_nil (id : String) (st : SectionStatus) (c : Nat) :
    updateItemStatusH [] id st c = ([], c) := by
  simp [updateItemStatusH]

theorem updateItemStatusH_cons_match (x : HNode) (rest : List HNode)
    (id : String) (st : SectionStatus) (c : Nat) (hid : x.id = id) :
    updateItemStatusH (x :: rest) id st c =
      ({ x with addr := c, status := st } ::
         (updateItemStatusH rest id st (c + 1)).1,
       (updateItemStatusH rest id st (c + 1)).2) := by
  simp [updateItemStatusH, hid]

theorem updateItemStatusH_cons_branch (x : HNode) (rest : List HNode)
    (id : String) (st : SectionStatus) (c : Nat) (hid : x.id ≠ id)
    (hch : x.children.length > 0) :
    updateItemStatusH (x :: rest) id st c =
      ({ x with addr := (updateItemStatusH x.children id st c).2,
                children := (updateItemStatusH x.children id st c).1 } ::
         (updateItemStatusH rest id st
           ((updateItemStatusH x.children id st c).2 + 1)).1,
       (updateItemStatusH rest id st
         ((updateItemStatusH x.children id st c).2 + 1)).2) := by
  simp [updateItemStatusH, hid, hch]

theorem updateItemStatusH_cons_leaf (x : HNode) (rest : List HNode)
    (id : String) (st : SectionStatus) (c : Nat) (hid : x.id ≠ id)
    (hch : ¬ x.children.length > 0) :
    updateItemStatusH (x :: rest) id st c =
      (x :: (updateItemStatusH rest id st c).1,
       (updateItemStatusH rest id st c).2) := by
  simp [updateItemStatusH, hid, hch]

theorem stripHList_updateItemStatusH (items : List HNode) (id : String)
    (st : SectionStatus) (c : Nat) :
    stripHList (updateItemStatusH items id st c).1 =
      updateItemStatus (stripHList items) id st := by
  match items with
  | [] =>
    rw [updateItemStatusH_nil, stripHList_nil, updateItemStatus_nil]
  | x :: rest =>
    by_cases hid : x.id = id
    · rw [updateItemStatusH_cons_match x rest id st c hid, stripHList_cons,
        stripHList_cons, updateItemStatus_cons,
        stripHList_updateItemStatusH rest id st (c + 1)]
      simp [hid]
    · by_cases hch : x.children.length > 0
      · have hlen : (stripHList x.children).length > 0 := by
          rw [stripHList_length]; exact hch
        rw [updateItemStatusH_cons_branch x rest id st c hid hch,
          stripHList_cons, stripHList_cons, updateItemStatus_cons,
          stripHList_updateItemStatusH rest id st
            ((updateItemStatusH x.children id st c).2 + 1),
          stripHList_updateItemStatusH x.children id st c]
        simp [hid, hlen]
      · have hlen : ¬ (stripHList x.children).length > 0 := by
          rw [stripHList_length]; exact hch
        rw [updateItemStatusH_cons_leaf x rest id st c hid hch,
          stripHList_cons, stripHList_cons, updateItemStatus_cons,
          stripHList_updateItemStatusH rest id st c]
        simp [hid, hlen]
termination_by sizeOf items
decreasing_by
  all_goals simp_wf
  all_goals first
    | omega
    | (rcases x with ⟨a, b, c9, d, e, f⟩; simp; omega)

theorem updateItemStatusH_leaf_preserved (items : List HNode) (id : String)
    (st : SectionStatus) :
    ∀ (c i : Nat) (x : HNode), items[i]? = some x → x.id ≠ id →
      x.children = [] → ((updateItemStatusH items id st c).1)[i]? = some x := by
  induction items with
  | nil => intro c i x hx; simp at hx
  | cons y rest ih =>
    intro c i x hx hxid hxch
    cases i with
    | zero =>
      simp only [List.getElem?_cons_zero, Option.some.injEq] at hx
      have hyid : y.id ≠ id := by rw [hx]; exact hxid
      have hych : y.children = [] := by rw [hx]; exact hxch
      have hch : ¬ y.children.length > 0 := by rw [hych]; simp
      rw [updateItemStatusH_cons_leaf y rest id st c hyid hch]
      simp [hx]
    | succ j =>
      simp only [List.getElem?_cons_succ] at hx
      by_cases hid : y.id = id
      · rw [updateItemStatusH_cons_match y rest id st c hid]
        simp only [List.getElem?_cons_succ]
        exact ih (c + 1) j x hx hxid hxch
      · by_cases hch : y.children.length > 0
        · rw [updateItemStatusH_cons_branch y rest id st c hid hch]
          simp only [List.getElem?_cons_succ]
          exact ih _ j x hx hxid hxch
        · rw [updateItemStatusH_cons_leaf y rest id st c hid hch]
          simp only [List.getElem?_cons_succ]
          exact ih c j x hx hxid hxch

theorem buildMarkdown_nil (contents : String → Option SectionContent) :
    buildMarkdown contents [] = "" := by
  simp [buildMarkdown]

theorem buildMarkdown_cons (contents : String → Option SectionContent)
    (item : OutlineItem) (rest : List OutlineItem) :
    buildMarkdown contents (item :: rest) =
      (completedBlock contents item).getD "" ++
        (buildMarkdown contents item.children ++ buildMarkdown contents rest) := by
  have hif : (if item.children.length > 0 then
      buildMarkdown contents item.children else "") =
      buildMarkdown contents item.children := by
    cases hc : item.children with
    | nil => rw [hc] at *; simp [buildMarkdown_nil]
    | cons a r => simp
  have hhead : (match contents item.id with
      | some sc =>
        if item.status = SectionStatus.completed ∧ sc.content ≠ "" then
          renderBlock item sc.content
        else ""
      | none => "") = (completedBlock contents item).getD "" := by
    unfold completedBlock
    cases hc : contents item.id with
    | none => simp
    | some sc =>
      by_cases hcond : item.status = SectionStatus.completed ∧ sc.content ≠ "" <;>
        simp [hcond]
  conv_lhs => rw [buildMarkdown]
  rw [hif, hhead]

theorem buildMarkdown_eq_exportSpec (contents : String → Option SectionContent)
    (items : List OutlineItem) :
    buildMarkdown contents items = exportSpecMarkdown contents items := by
  match items with
  | [] =>
    rw [buildMarkdown_nil, exportSpecMarkdown, flattenDF_nil]
    simp [concatAll]
  | item :: rest =>
    rw [buildMarkdown_cons,
      buildMarkdown_eq_exportSpec contents item.children,
      buildMarkdown_eq_exportSpec contents rest]
    simp only [exportSpecMarkdown, flattenDF_cons, List.filterMap_cons,
      List.filterMap_append]
    cases hcb : completedBlock contents item with
    | none =>
      rw [concatAll_append, Option.getD_none, empty_string_append]
    | some b =>
      simp only [concatAll, concatAll_append, Option.getD_some]
      try exact (String.append_assoc b _ _).symm
termination_by sizeOf items
decreasing_by
  all_goals simp_wf
  all_goals first
    | omega
    | (rcases item with ⟨a, b, c, d, e⟩; simp; omega)

/-! ### Claims -/

/-- C1: for every non-empty message history whose last message is from the
user, the Writer-agent prompt assembly modifies only the last user turn,
replacing its text with the global knowledge context, then the research
context, then the cross-reference context, then the literal user
instruction, in that order (the `injectContext` template); every earlier
turn is passed unmodified; and an absent free-text prompt yields exactly
the canonical default instruction. -/
theorem C1_writer_prompt_assembly (earlier : List Message) (last : Message)
    (contextSections researchContext globalKnowledgeContext title : String)
    (h : last.sender = Sender.user) :
    generateContentHistory (earlier ++ [last]) contextSections researchContext
        globalKnowledgeContext =
      Except.ok (earlier.map toGeminiTurn ++
        [{ role := "user",
           text := injectContext globalKnowledgeContext researchContext
             contextSections last.text }]) ∧
    finalPromptFor none title = defaultInstructionFor title := by
  constructor
  · have hne : ¬ ((earlier ++ [last]).length = 0) := by simp
    unfold generateContentHistory
    rw [if_neg hne, List.map_append]
    simp only [List.map_cons, List.map_nil]
    rw [applyToLast_concat]
    simp [toGeminiTurn, h]
  · rfl

/-- Witness for C1 at a concrete two-message history. -/
theorem C1_witness :
    generateContentHistory
        [{ sender := Sender.agent, text := "hi" },
         { sender := Sender.user, text := "go" }] "C" "R" "G" =
      Except.ok
        [{ role := "model", text := "hi" },
         { role := "user", text := injectContext "G" "R" "C" "go" }] ∧
    finalPromptFor none "T" = defaultInstructionFor "T" := by
  have h := C1_writer_prompt_assembly
    [{ sender := Sender.agent, text := "hi" }]
    { sender := Sender.user, text := "go" } "C" "R" "G" "T" rfl
  simpa [toGeminiTurn] using h

/-- C10: when the last message of a non-empty history is from the agent,
the history is sent to the model entirely unmodified: no context part is
injected into any turn. -/
theorem C10_agent_last_history_unmodified (earlier : List Message)
    (last : Message)
    (contextSections researchContext globalKnowledgeContext : String)
    (h : last.sender = Sender.agent) :
    generateContentHistory (earlier ++ [last]) contextSections researchContext
        globalKnowledgeContext =
      Except.ok ((earlier ++ [last]).map toGeminiTurn) := by
  have hne : ¬ ((earlier ++ [last]).length = 0) := by simp
  unfold generateContentHistory
  rw [if_neg hne, List.map_append]
  simp only [List.map_cons, List.map_nil]
  rw [applyToLast_concat]
  simp [toGeminiTurn, h]

/-- Witness for C10 at a concrete history ending in an agent turn. -/
theorem C10_witness :
    generateContentHistory
        [{ sender := Sender.user, text := "hi" },
         { sender := Sender.agent, text := "yo" }] "C" "R" "G" =
      Except.ok
        [{ role := "user", text := "hi" }, { role := "model", text := "yo" }] := by
  have h := C10_agent_last_history_unmodified
    [{ sender := Sender.user, text := "hi" }]
    { sender := Sender.agent, text := "yo" } "C" "R" "G" rfl
  simpa [toGeminiTurn] using h

/-- C9: `updateItemStatus` with an id that occurs nowhere in the tree is a
no-op at the value level: it returns the input tree unchanged instead of
failing. -/
theorem C9_setStatus_absent_noop (items : List OutlineItem) (id : String)
    (st : SectionStatus) (h : ∀ n ∈ flattenDF items, n.id ≠ id) :
    updateItemStatus items id st = items :=
  updateItemStatus_of_absent items id st h

/-- Witness for C9 on a concrete one-node tree and a missing id. -/
theorem C9_witness :
    updateItemStatus
        [{ id := "1", title := "A", level := 0,
           status := SectionStatus.outline, children := [] }] "9"
        SectionStatus.writing =
      [{ id := "1", title := "A", level := 0,
         status := SectionStatus.outline, children := [] }] := by
  apply C9_setStatus_absent_noop
  intro n hn
  rw [flattenDF_cons, flattenDF_nil] at hn
  simp at hn
  subst hn
  decide

/-- C5: the export walk produces exactly the concatenation, in depth-first
tree order, of the blocks of the nodes that are `Completed` with
non-empty content; failing nodes contribute nothing themselves but their
children are still visited (`exportSpecMarkdown` is the spec-worded
flatten-filter-concatenate form). -/
theorem C5_export_completed (contents : String → Option SectionContent)
    (items : List OutlineItem) :
    buildMarkdown contents items = exportSpecMarkdown contents items :=
  buildMarkdown_eq_exportSpec contents items

/-- C2: the metadata-attachment pass assigns to the node at 0-based
sibling position `i` the id `childId pid i` (parent path plus 1-based
index, bare index at the roots), the parent-supplied level, status
`Outline`, and recursively processed children one level deeper under the
node's id; the concrete two-root scenario yields ids 1, 2, 2.1 with
levels 0, 0, 1; and the pass is a pure function, so repeated runs agree. -/
theorem C2_metadata_attachment :
    (addMetadataToOutline
        [⟨some "Intro", none⟩, ⟨some "Body", some [⟨some "Sub", none⟩]⟩] 0 "" =
      [{ id := "1", title := "Intro", level := 0,
         status := SectionStatus.outline, children := [] },
       { id := "2", title := "Body", level := 0,
         status := SectionStatus.outline, children :=
          [{ id := "2.1", title := "Sub", level := 1,
             status := SectionStatus.outline, children := [] }] }]) ∧
    (∀ (items : List RawOutlineItem) (level : Nat) (pid : String) (i : Nat)
        (item : RawOutlineItem), items[i]? = some item →
      (addMetadataToOutline items level pid)[i]? =
        some (metaNode item level (childId pid i))) ∧
    (∀ (item : RawOutlineItem) (level : Nat) (id : String),
      (metaNode item level id).children =
        addMetadataToOutline (item.children.getD []) (level + 1) id) ∧
    (∀ (items : List RawOutlineItem) (level : Nat) (pid : String),
      addMetadataToOutline items level pid = addMetadataToOutline items level pid) := by
  refine ⟨?_, ?_, ?_, fun _ _ _ => rfl⟩
  · simp [addMetadataToOutline, addMetadataAux, childId, titleOrUntitled]
    decide
  · intro items level pid i item hi
    rw [addMetadataToOutline, addMetadataAux_getElem items level pid 0 i, hi]
    simp
  · intro item level id
    rcases item with ⟨t, c⟩
    cases c <;> simp [metaNode, addMetadataToOutline, addMetadataAux_nil]

/-- Witness for C2 on a concrete singleton raw outline. -/
theorem C2_witness :
    (addMetadataToOutline [⟨some "Solo", none⟩] 5 "3")[0]? =
      some (metaNode ⟨some "Solo", none⟩ 5 (childId "3" 0)) :=
  C2_metadata_attachment.2.1 [⟨some "Solo", none⟩] 5 "3" 0 ⟨some "Solo", none⟩ rfl

/-- C3 counterexample: in the tree `[node "1" [node "1.1"], node "2"]`,
updating the status of node `"2"` leaves node `"1"` — a sibling subtree
entirely off the root-to-target path — with a fresh heap address (3
instead of 0): the source rebuilds every node that has children, so
off-path siblings with children are structurally equal copies, not
reference-identical objects, refuting the claim. -/
theorem C3_counterexample_reference_sharing :
    let tree : List HNode :=
      [⟨0, "1", "A", 0, SectionStatus.outline,
         [⟨1, "1.1", "B", 1, SectionStatus.outline, []⟩]⟩,
       ⟨2, "2", "C", 0, SectionStatus.outline, []⟩]
    let result := (updateItemStatusH tree "2" SectionStatus.writing 3).1
    result.head?.map HNode.id = tree.head?.map HNode.id ∧
    result.head?.map HNode.addr ≠ tree.head?.map HNode.addr := by
  simp [updateItemStatusH]

/-- C3 amended: `setStatus` returns a tree structurally equal to the
input with only the target node's status changed — node for node in
depth-first order, id, title and level are preserved and the status
either is unchanged or, on a node carrying the target id, becomes the
new status (`statusRel`); the output agrees with the value-level
`updateItemStatus`; and every childless node other than the target is
returned reference-unchanged (same object, address included).  Sibling
subtrees that contain children are rebuilt as structurally equal copies
rather than being reference-preserved (the counterexample). -/
theorem C3_amended_structural_sharing :
    (∀ (items : List HNode) (id : String) (st : SectionStatus) (c : Nat),
      List.Forall₂ (statusRel id st)
        (flattenDF (stripHList items))
        (flattenDF (stripHList (updateItemStatusH items id st c).1))) ∧
    (∀ (items : List HNode) (id : String) (st : SectionStatus) (c : Nat),
      stripHList (updateItemStatusH items id st c).1 =
        updateItemStatus (stripHList items) id st) ∧
    (∀ (items : List HNode) (id : String) (st : SectionStatus) (c i : Nat)
        (x : HNode), items[i]? = some x → x.id ≠ id → x.children = [] →
      ((updateItemStatusH items id st c).1)[i]? = some x) :=
  ⟨fun items id st c => by
    rw [stripHList_updateItemStatusH items id st c]
    exact updateItemStatus_forall₂ (stripHList items) id st,
   stripHList_updateItemStatusH,
   fun items id st c i x h1 h2 h3 =>
     updateItemStatusH_leaf_preserved items id st c i x h1 h2 h3⟩

/-- Witness for the amended C3 on a concrete childless off-target node. -/
theorem C3_amended_witness :
    ((updateItemStatusH [⟨5, "1", "A", 0, SectionStatus.outline, []⟩] "2"
        SectionStatus.writing 9).1)[0]? =
      some ⟨5, "1", "A", 0, SectionStatus.outline, []⟩ :=
  C3_amended_structural_sharing.2.2 _ "2" _ 9 0 _ rfl (by decide) rfl

/-- C4 counterexample: the active section is `"1"`; when `contextIds`
contains the section's own id `"1"` and its stored content is non-empty,
the assembler emits the section's own content as a cross-reference block
— it performs no self-exclusion, refuting the claim. -/
theorem C4_counterexample_self_reference :
    let outline : List OutlineItem :=
      [{ id := "1", title := "Intro", level := 0,
         status := SectionStatus.outline, children := [] }]
    let contents : String → Option SectionContent :=
      fun i => if i = "1" then
        some { defaultSectionContent with content := "Own text" } else none
    contextParts outline contents ["1"] = ["--- REF: Intro ---\nOwn text"] ∧
    "--- REF: Intro ---\nOwn text" ∈ contextParts outline contents ["1"] := by
  constructor <;> simp [contextParts, findItem, defaultSectionContent]

/-- C4 amended: the assembler performs no self-exclusion — any id in
`contextIds` that resolves to a section with non-empty content, the
target's own id included, contributes its block to the cross-reference
context; exclusion of the own id is enforced only by the UI checkbox
list, which filters the active section out of the selectable sections. -/
theorem C4_amended_no_self_exclusion :
    (∀ (outline : List OutlineItem) (contents : String → Option SectionContent)
        (ids : List String) (i : String) (item : OutlineItem)
        (sc : SectionContent),
      i ∈ ids → findItem outline i = some item → contents i = some sc →
      sc.content ≠ "" →
      ("--- REF: " ++ item.title ++ " ---\n" ++ sc.content) ∈
        contextParts outline contents ids) ∧
    (∀ (sections : List OutlineItem) (active : OutlineItem),
      active.id ∉ (selectableSections sections (some active)).map OutlineItem.id) := by
  constructor
  · intro outline contents ids i item sc hmem hfind hc hne
    simp only [contextParts, List.mem_filterMap]
    refine ⟨i, hmem, ?_⟩
    rw [hfind, hc]
    simp [hne]
  · intro sections active
    simp only [selectableSections, List.mem_map, List.mem_filter, not_exists]
    rintro x ⟨⟨hx, hne⟩, hid⟩
    simp only [bne_iff_ne] at hne
    exact hne hid

/-- Witness for the amended C4 on a concrete non-self reference. -/
theorem C4_amended_witness :
    ("--- REF: " ++ "Other" ++ " ---\n" ++ "Ref") ∈
      contextParts
        [{ id := "2", title := "Other", level := 0,
           status := SectionStatus.outline, children := [] }]
        (fun i => if i = "2" then
          some { defaultSectionContent with content := "Ref" } else none)
        ["2"] := by
  apply C4_amended_no_self_exclusion.1 _ _ ["2"] "2"
    { id := "2", title := "Other", level := 0,
      status := SectionStatus.outline, children := [] }
    { defaultSectionContent with content := "Ref" }
  · simp
  · simp [findItem]
  · simp
  · decide

/-- C6 counterexample: a failed generation on the concrete one-node flow
leaves committed partial state behind — the target's status has moved to
`Writing` and its message log has grown — refuting the claim that all
state is left exactly as before the invocation. -/
theorem C6_counterexample_failure_commits_state :
    let s : FlowState :=
      { outline := [{ id := "1", title := "Intro", level := 0,
                      status := SectionStatus.outline, children := [] }],
        contents := fun _ => none }
    let s2 := handleGenerate s "1" "Intro" none (Except.error "boom")
    statusIn s2.outline "1" = some SectionStatus.writing ∧
    statusIn s.outline "1" = some SectionStatus.outline ∧
    statusIn s2.outline "1" ≠ statusIn s.outline "1" ∧
    (getContent s2 "1").messages ≠ (getContent s "1").messages := by
  refine ⟨?_, ?_, ?_, ?_⟩ <;>
    simp [handleGenerate, statusIn, findItem, updateItemStatus, getContent,
      setContent, defaultSectionContent, finalPromptFor, defaultInstructionFor]

/-- C6 amended: on a failed generation the section's stored content and
the rest of the content store are untouched, but before the call the
handler has already set the target's status to `Writing` (never reverted)
and the failure handler appends the user message and an agent error
message to the target's log, so the outline tree and messages are not
left as they were. -/
theorem C6_amended_failure_effects (s : FlowState)
    (sectionId sectionTitle : String) (prompt : Option String) (e : String) :
    (handleGenerate s sectionId sectionTitle prompt (Except.error e)).outline =
      updateItemStatus s.outline sectionId SectionStatus.writing ∧
    (getContent (handleGenerate s sectionId sectionTitle prompt
        (Except.error e)) sectionId).content =
      (getContent s sectionId).content ∧
    (getContent (handleGenerate s sectionId sectionTitle prompt
        (Except.error e)) sectionId).messages =
      (getContent s sectionId).messages ++
        [{ sender := Sender.user, text := finalPromptFor prompt sectionTitle },
         { sender := Sender.agent,
           text := "I\x27m sorry, I encountered an error: " ++ e }] ∧
    (∀ j, j ≠ sectionId →
      (handleGenerate s sectionId sectionTitle prompt
        (Except.error e)).contents j = s.contents j) := by
  refine ⟨rfl, ?_, ?_, ?_⟩
  · cases hs : s.contents sectionId <;>
      simp [handleGenerate, getContent, setContent, hs]
  · cases hs : s.contents sectionId <;>
      simp [handleGenerate, getContent, setContent, hs]
  · intro j hj
    simp [handleGenerate, setContent, hj]

/-- Witness for the amended C6 on a concrete empty flow. -/
theorem C6_amended_witness :
    (handleGenerate ⟨[], fun _ => none⟩ "1" "T" none (Except.error "x")).outline =
      updateItemStatus ([] : List OutlineItem) "1" SectionStatus.writing ∧
    (getContent (handleGenerate ⟨[], fun _ => none⟩ "1" "T" none
        (Except.error "x")) "1").content =
      (getContent ⟨[], fun _ => none⟩ "1").content ∧
    (getContent (handleGenerate ⟨[], fun _ => none⟩ "1" "T" none
        (Except.error "x")) "1").messages =
      (getContent ⟨[], fun _ => none⟩ "1").messages ++
        [{ sender := Sender.user, text := finalPromptFor none "T" },
         { sender := Sender.agent,
           text := "I\x27m sorry, I encountered an error: " ++ "x" }] ∧
    (∀ j, j ≠ "1" →
      (handleGenerate ⟨[], fun _ => none⟩ "1" "T" none
        (Except.error "x")).contents j = (fun _ => none) j) :=
  C6_amended_failure_effects ⟨[], fun _ => none⟩ "1" "T" none "x"

/-- C7 counterexample: invoking the Writer agent on a section that is
already `Completed` moves its status back to `Writing` — a backward
transition along the lifecycle, refuting the claim that no workflow
operation ever regresses a status. -/
theorem C7_counterexample_completed_regression :
    let s : FlowState :=
      { outline := [{ id := "1", title := "Intro", level := 0,
                      status := SectionStatus.completed, children := [] }],
        contents := fun _ => none }
    statusIn s.outline "1" = some SectionStatus.completed ∧
    statusIn (handleGenerate s "1" "Intro" none (Except.ok "draft")).outline "1" =
      some SectionStatus.writing ∧
    statusRank SectionStatus.writing < statusRank SectionStatus.completed := by
  refine ⟨?_, ?_, ?_⟩ <;>
    simp [handleGenerate, statusIn, findItem, updateItemStatus, statusRank]

/-- C7 amended: committing never moves any node's status backward
(`Completed` is maximal), and invoking the Writer agent never moves any
node's status backward provided no node carrying the target id is already
`Completed`; generating on a `Completed` section regresses it to
`Writing`. -/
theorem C7_amended_monotonicity :
    (∀ (s : FlowState) (sectionId : String),
      List.Forall₂ (fun a b => statusRank a.status ≤ statusRank b.status)
        (flattenDF s.outline) (flattenDF (handleCommit s sectionId).outline)) ∧
    (∀ (s : FlowState) (sectionId sectionTitle : String)
        (prompt : Option String) (result : Except String String),
      (∀ n ∈ flattenDF s.outline,
        n.id = sectionId → n.status ≠ SectionStatus.completed) →
      List.Forall₂ (fun a b => statusRank a.status ≤ statusRank b.status)
        (flattenDF s.outline)
        (flattenDF (handleGenerate s sectionId sectionTitle prompt
          result).outline)) := by
  constructor
  · intro s sectionId
    have h := updateItemStatus_forall₂ s.outline sectionId SectionStatus.completed
    refine h.imp (fun a b hab => ?_)
    rcases hab with ⟨_, _, _, hst | ⟨_, hst⟩⟩
    · rw [hst]
    · rw [hst]; cases a.status <;> simp [statusRank]
  · intro s sectionId sectionTitle prompt result hp
    have houtline : (handleGenerate s sectionId sectionTitle prompt
        result).outline = updateItemStatus s.outline sectionId
          SectionStatus.writing := by
      cases result <;> rfl
    rw [houtline]
    have h := updateItemStatus_forall₂ s.outline sectionId SectionStatus.writing
    have hand := (List.forall₂_and_left _ _).2 ⟨hp, h⟩
    refine hand.imp (fun a b hab => ?_)
    rcases hab with ⟨hpa, _, _, _, hst | ⟨hid, hst⟩⟩
    · rw [hst]
    · rw [hst]
      have := hpa hid
      cases ha : a.status <;> simp [statusRank]
      exact this ha

/-- Witness for the amended C7 on a concrete one-node flow whose section
is not yet completed. -/
theorem C7_amended_witness :
    List.Forall₂ (fun a b => statusRank a.status ≤ statusRank b.status)
      (flattenDF (FlowState.mk
        [{ id := "1", title := "A", level := 0,
           status := SectionStatus.outline, children := [] }]
        (fun _ => none)).outline)
      (flattenDF (handleGenerate
        (FlowState.mk
          [{ id := "1", title := "A", level := 0,
             status := SectionStatus.outline, children := [] }]
          (fun _ => none)) "1" "A" none (Except.ok "t")).outline) := by
  apply C7_amended_monotonicity.2 _ "1" "A" none (Except.ok "t")
  intro n hn
  rw [flattenDF_cons, flattenDF_nil] at hn
  simp at hn
  subst hn
  intro _
  decide

/-- C8 counterexample: on a section whose stored content is empty, the
commit handler itself still marks the section `Completed` — it performs
no emptiness check, refuting the claim that commit is a no-op on the
outline tree. -/
theorem C8_counterexample_commit_handler :
    let s : FlowState :=
      { outline := [{ id := "1", title := "Intro", level := 0,
                      status := SectionStatus.outline, children := [] }],
        contents := fun _ => none }
    (getContent s "1").content = "" ∧
    statusIn (handleCommit s "1").outline "1" = some SectionStatus.completed ∧
    statusIn s.outline "1" = some SectionStatus.outline := by
  refine ⟨rfl, ?_, ?_⟩ <;>
    simp [handleCommit, statusIn, findItem, updateItemStatus]

/-- C8 amended: when the section's stored content is the empty string the
Workspace disables the Commit button, so a commit request issued through
the UI is a no-op on the whole flow state; the commit handler itself
performs no emptiness check and marks the section `Completed` when called
directly. -/
theorem C8_amended_ui_gating (s : FlowState) (sectionId : String)
    (h : (getContent s sectionId).content = "") :
    uiCommit s sectionId = s := by
  simp [uiCommit, commitDisabled, h]

/-- Witness for the amended C8 on a concrete empty-content flow. -/
theorem C8_amended_witness :
    uiCommit ⟨[], fun _ => none⟩ "1" = (⟨[], fun _ => none⟩ : FlowState) :=
  C8_amended_ui_gating ⟨[], fun _ => none⟩ "1" rfl

end MASWriter
